import Mathlib

/-!
Verification development for the storage-upload sample.

The program packages a file or directory tree into a content-addressed CAR
archive (`createCar` / `writeFiles` / `calculateCid` in the source) and
uploads it to a remote storage service (`uploadFile`), reporting progress
through a small `io.Reader` decorator (`ProgressReader`).

The Go source is embedded shallowly: pure functions become Lean functions,
the mutable CAR block store becomes explicit state passing, and fallible
steps return `Option`/`Except` values.  External library behaviour that the
source calls into (the multihash hasher, the go-car block store, the
go-unixfsnode DAG builder) is modelled from the specification, with each
such definition marked `Modelled from the spec:` in its doc comment.
Fault injection for I/O failures is threaded through an explicit
environment record so that error-propagation claims can be stated.
-/

/-- Multicodec tag for dag-pb, as used by `cid.NewCidV1(uint64(multicodec.DagPb), hash)`. -/
def DagPb : Nat := 0x70

/-- Multicodec tag for raw leaf blocks. -/
def Raw : Nat := 0x55

/-- Multihash algorithm tag for SHA2-256, as in `multihash.SHA2_256`. -/
def SHA2_256 : Nat := 0x12

/-- Unsigned LEB128 varint encoder, fuel-indexed so that it is structural
and kernel-computable.  The fuel argument is always at least the number of
base-128 digits, so the fuel-exhausted branch is unreachable. -/
def varintAux : Nat → Nat → List Nat
  | 0, n => [n % 128]
  | fuel + 1, n => if n < 128 then [n] else (n % 128 + 128) :: varintAux fuel (n / 128)

/-- Unsigned LEB128 varint of `n` (fuel `n` always suffices). -/
def varint (n : Nat) : List Nat := varintAux n n

/-- Modelled from the spec: the Content Hasher (section 4.1) realised by the
external multihash library's SHA2-256 — "computes a fixed-size cryptographic
digest for a byte string".  The compression function itself is outside this
repository; it is modelled as a deterministic executable function with the
algorithm's fixed 32-byte digest size. -/
def sha256 (msg : List Nat) : List Nat :=
  (List.range 32).map (fun i =>
    ((msg.foldl (fun a b => (a * 131 + b % 256 + 7) % 251) (i * 37 + msg.length)) + i) % 256)

/-- A decoded multihash: algorithm code plus digest, as produced by
`multihash.Encode(digest, code)`. -/
structure Multihash where
  code : Nat
  digest : List Nat
deriving DecidableEq

/-- Model of `multihash.Encode(digest, code)` (kept in decoded form). -/
def mhEncode (digest : List Nat) (code : Nat) : Multihash := ⟨code, digest⟩

/-- A content identifier: version, codec tag, hash algorithm tag and digest,
per the data model of the spec (section 3). -/
structure Cid where
  version : Nat
  codec : Nat
  mhCode : Nat
  digest : List Nat
deriving DecidableEq

/-- Model of `cid.NewCidV1(codec, mhash)`. -/
def newCidV1 (codec : Nat) (mh : Multihash) : Cid := ⟨1, codec, mh.code, mh.digest⟩

/-- The zero value `cid.Undef` returned by the Go source on error paths. -/
def cidUndef : Cid := ⟨0, 0, 0, []⟩

/-- Binary serialization of a CIDv1: varint version, varint codec, then the
multihash bytes (varint code, varint digest length, digest). -/
def cidBytes (c : Cid) : List Nat :=
  varint c.version ++ varint c.codec ++ varint c.mhCode ++ varint c.digest.length ++ c.digest

/-- Model of `cid.Cid.String()`: a textual rendering of the CID bytes.
Only its non-emptiness and injectivity on equal inputs matter to the claims. -/
def cidString (c : Cid) : String := toString (cidBytes c)

/-- The placeholder root built at the top of `createCar`:
`digest := hasher.Sum([]); hash := multihash.Encode(digest, SHA2_256);`
`proxyRoot := cid.NewCidV1(uint64(multicodec.DagPb), hash)`. -/
def proxyRoot : Cid := newCidV1 DagPb (mhEncode (sha256 []) SHA2_256)

/-- Error kinds of the embedding (section 7 of the spec plus the wrapped
errors the Go source produces). -/
inductive Err
  | ioError
  | eofErr
  | unsupportedAlgorithm
  | invalidEntry
  | dirAssembly
  | notFound
  | rootsSizeMismatch
  | alreadyExist
  | formUploadFailed
  | createAssetFailed (e : Err)
deriving DecidableEq

/-- A stored block: CID plus raw bytes. -/
structure Block where
  cid : Cid
  data : List Nat
deriving DecidableEq

/-- Lifecycle phase of the CAR block store, per the spec's state machine
`Open → Finalized → RootPatched` (section 9). -/
inductive Phase
  | opened
  | finalized
  | rootPatched
deriving DecidableEq

/-- Observable store operations, recorded in order of occurrence so that
temporal claims about the two-phase commit can be stated. -/
inductive Ev
  | putEv (c : Cid)
  | finalizeEv
  | replaceEv
deriving DecidableEq

/-- Modelled from the spec: the go-car read-write block store (section 4.4) —
an append log of blocks plus a header holding the declared roots, opened in
phase `opened`, finalized, then root-patched in place. -/
structure CarStore where
  phase : Phase
  roots : List Cid
  blocks : List Block
  putCount : Nat
  events : List Ev
deriving DecidableEq

/-- Fault-injection environment: each flag stands for a real failure mode of
the corresponding step in the Go source (library errors, filesystem I/O). -/
structure Env where
  hasherFails : Bool
  encodeFails : Bool
  openFails : Bool
  readFails : Bool
  dirFails : Bool
  finalizeFails : Bool
  putFails : Nat → Bool

/-- The environment in which no injected failure occurs. -/
def benignEnv : Env := ⟨false, false, false, false, false, false, fun _ => false⟩

/-- Modelled from the spec: `blockstore.OpenReadWrite(output, roots)` —
creates a fresh store in phase `opened` declaring the given roots. -/
def openReadWrite (roots : List Cid) : CarStore :=
  { phase := .opened, roots := roots, blocks := [], putCount := 0, events := [] }

/-- Modelled from the spec: `bs.Put(ctx, blk)` — appends a block while the
store is open; rejected in any other phase (section 9) and subject to an
injected I/O failure counted per call. -/
def putB (env : Env) (bs : CarStore) (b : Block) : CarStore × Option Err :=
  if bs.phase = .opened then
    if env.putFails bs.putCount then
      ({ bs with putCount := bs.putCount + 1 }, some .ioError)
    else
      ({ bs with blocks := bs.blocks ++ [b], putCount := bs.putCount + 1,
                 events := bs.events ++ [.putEv b.cid] }, none)
  else (bs, some .ioError)

/-- Modelled from the spec: `bs.Get(ctx, c)` — random access by CID,
`NotFound` if absent. -/
def getB (bs : CarStore) (c : Cid) : Except Err (List Nat) :=
  match bs.blocks.find? (fun b => decide (b.cid = c)) with
  | some b => .ok b.data
  | none => .error .notFound

/-- Modelled from the spec: `cdest.Finalize()` — flushes and fixes the
store's length; valid only in phase `opened`, subject to injected I/O
failure. -/
def finalizeB (env : Env) (bs : CarStore) : Except Err CarStore :=
  if bs.phase = .opened then
    if env.finalizeFails then .error .ioError
    else .ok { bs with phase := .finalized, events := bs.events ++ [.finalizeEv] }
  else .error .ioError

/-- Concatenation of a list of byte lists. -/
def catLists (l : List (List Nat)) : List Nat := l.foldr (fun a b => a ++ b) []

/-- Payload of the CAR header: version byte, root count, then the serialized
root CIDs. -/
def headerPayload (roots : List Cid) : List Nat :=
  [1] ++ varint roots.length ++ catLists (roots.map cidBytes)

/-- The CAR header: varint length prefix followed by the payload. -/
def headerBytes (roots : List Cid) : List Nat :=
  varint (headerPayload roots).length ++ headerPayload roots

/-- Framing of one block record in the archive: varint length prefix, CID
bytes, then the block data. -/
def blockBytes (b : Block) : List Nat :=
  varint (cidBytes b.cid ++ b.data).length ++ cidBytes b.cid ++ b.data

/-- The bytes of the archive file: header followed by the append log. -/
def fileBytes (bs : CarStore) : List Nat :=
  headerBytes bs.roots ++ catLists (bs.blocks.map blockBytes)

/-- Modelled from the spec: `car.ReplaceRootsInFile(output, newRoots)` —
rewrites only the header in place, valid immediately after finalization and
only when the new header occupies exactly the bytes of the old one
(sections 4.4 and 9). -/
def replaceRootsB (bs : CarStore) (newRoots : List Cid) : Except Err CarStore :=
  if bs.phase = .finalized then
    if (headerBytes newRoots).length = (headerBytes bs.roots).length then
      .ok { bs with roots := newRoots, phase := .rootPatched,
                    events := bs.events ++ [.replaceEv] }
    else .error .rootsSizeMismatch
  else .error .ioError

mutual
/-- A filesystem input: a regular file with its bytes, or a directory with
its children in the (stable) traversal order of the build.  The children are
a mutually defined list so that structural recursion and computation stay
kernel-friendly. -/
inductive FsEntry
  | file (name : String) (data : List Nat)
  | dir (name : String) (kids : FsList)
/-- Children of a directory entry, in traversal order. -/
inductive FsList
  | nil
  | cons (e : FsEntry) (rest : FsList)
end

mutual
/-- Directory-nesting depth of an entry, used as recursion fuel for the
builder; files have depth 1. -/
def fsDepth : FsEntry → Nat
  | .file _ _ => 1
  | .dir _ kids => 1 + fsListDepth kids
/-- Greatest depth among a list of entries. -/
def fsListDepth : FsList → Nat
  | .nil => 0
  | .cons e rest => max (fsDepth e) (fsListDepth rest)
end

/-- The entry name used for a built path: `path.Base(p)` in the source. -/
def entryName : FsEntry → String
  | .file n _ => n
  | .dir n _ => n

/-- A dag-pb directory link as built by `builder.BuildUnixFSDirectoryEntry`:
entry name, cumulative size, and the child's CID. -/
structure PBLink where
  name : String
  tsize : Nat
  hash : Cid
deriving DecidableEq

/-- A Link System write path: given the current storage state, a node's
bytes and its CID, commit the node and report an optional write error
(spec section 4.5). -/
def Commit (σ : Type) := σ → List Nat → Cid → σ × Option Err

/-- Modelled from the spec: the Chunker (section 4.2) — bounded-size
segments, maximum size an archive-wide constant. -/
def chunkSize : Nat := 1048576

/-- Chunker worker, fuel-indexed to stay structural; fuel `data.length`
always suffices because every step consumes `chunkSize ≥ 1` bytes. -/
def chunkAux : Nat → List Nat → List (List Nat)
  | 0, data => [data]
  | fuel + 1, data =>
    if data.length ≤ chunkSize then [data]
    else data.take chunkSize :: chunkAux fuel (data.drop chunkSize)

/-- Modelled from the spec: `chunk(stream)` — splits the bytes into
`chunkSize`-bounded segments whose concatenation is the input; a zero-length
input yields exactly one empty segment. -/
def chunkBytes (data : List Nat) : List (List Nat) := chunkAux data.length data

/-- The CID of a raw leaf block holding one chunk. -/
def leafCid (seg : List Nat) : Cid := ⟨1, Raw, SHA2_256, sha256 seg⟩

/-- Writes every chunk as a raw leaf through the Link System write path,
propagating the first commit error. -/
def commitLeaves {σ : Type} (commit : Commit σ) (st : σ) : List (List Nat) → σ × Option Err
  | [] => (st, none)
  | s :: ss =>
    match commit st s (leafCid s) with
    | (st', some e) => (st', some e)
    | (st', none) => commitLeaves commit st' ss

/-- Serialization of an intermediate file node linking its leaves in stream
order (dag-pb detail, modelled from the spec). -/
def encodeFileNode (links : List (Cid × Nat)) : List Nat :=
  varint links.length ++ catLists (links.map (fun l => cidBytes l.1 ++ varint l.2))

/-- Modelled from the spec: `builder.BuildUnixFSFile` (section 4.3) — chunks
the stream, writes each chunk as a raw leaf via the Link System, and, only
when more than one leaf resulted, writes one intermediate dag-pb file node
referencing the leaves in order.  A single-chunk file is represented by its
bare raw leaf.  (The library's multi-level layout beyond one intermediate
node is not reached at the file sizes considered here.) -/
def buildFile {σ : Type} (commit : Commit σ) (st : σ) (data : List Nat) :
    σ × Except Err (Cid × Nat) :=
  let segs := chunkBytes data
  match commitLeaves commit st segs with
  | (st', some e) => (st', .error e)
  | (st', none) =>
    match segs with
    | [s] => (st', .ok (leafCid s, data.length))
    | _ =>
      let links := segs.map (fun s => (leafCid s, s.length))
      let nb := encodeFileNode links
      let c : Cid := ⟨1, DagPb, SHA2_256, sha256 nb⟩
      match commit st' nb c with
      | (st'', some e) => (st'', .error e)
      | (st'', none) => (st'', .ok (c, data.length))

/-- Serialization of one directory link. -/
def encodeLink (l : PBLink) : List Nat :=
  varint l.name.length ++ (l.name.toList.map Char.toNat) ++ varint l.tsize ++ cidBytes l.hash

/-- Serialization of a directory node: its links in insertion order (order
is part of the canonical bytes, spec section 4.3). -/
def encodeDirNode (links : List PBLink) : List Nat :=
  varint links.length ++ catLists (links.map encodeLink)

/-- Modelled from the spec: `builder.BuildUnixFSDirectory` (section 4.3) —
builds one dag-pb directory node over the supplied entries in order, fails
with `InvalidEntry` on a duplicate name, and is subject to an injected
node-assembly failure (the failure mode of spec section 9). -/
def buildDirectory {σ : Type} (env : Env) (commit : Commit σ) (st : σ)
    (entries : List PBLink) : σ × Except Err (Cid × Nat) :=
  if env.dirFails then (st, .error .dirAssembly)
  else if (entries.map PBLink.name).Nodup then
    let nb := encodeDirNode entries
    let c : Cid := ⟨1, DagPb, SHA2_256, sha256 nb⟩
    match commit st nb c with
    | (st', some e) => (st', .error e)
    | (st', none) =>
      (st', .ok (c, nb.length + entries.foldr (fun l a => l.tsize + a) 0))
  else (st, .error .invalidEntry)

/-- The children of a directory as an ordinary list. -/
def FsList.toList : FsList → List FsEntry
  | .nil => []
  | .cons e rest => e :: FsList.toList rest

/-- Builds every child of a directory in order, producing the link entries
(`builder.BuildUnixFSDirectoryEntry` applied to each child's name, size and
CID), propagating the first failure. -/
def buildKidsGo {σ : Type} (bld : σ → FsEntry → σ × Except Err (Cid × Nat)) :
    σ → List FsEntry → σ × Except Err (List PBLink)
  | st, [] => (st, .ok [])
  | st, k :: ks =>
    match bld st k with
    | (st', .error e) => (st', .error e)
    | (st', .ok (c, sz)) =>
      match buildKidsGo bld st' ks with
      | (st'', .error e) => (st'', .error e)
      | (st'', .ok ls) => (st'', .ok (⟨entryName k, sz, c⟩ :: ls))

/-- Modelled from the spec: `builder.BuildUnixFSRecursive` (section 4.3) —
a file delegates to the file builder (its stream read subject to an injected
I/O failure), a directory recursively builds each child and then builds the
directory node.  Fuel-indexed on directory depth to stay structural; any
fuel at least `fsDepth` of the entry suffices. -/
def buildRecF {σ : Type} (env : Env) (commit : Commit σ) :
    Nat → σ → FsEntry → σ × Except Err (Cid × Nat)
  | _, st, .file _ data =>
    if env.readFails then (st, .error .ioError) else buildFile commit st data
  | 0, st, .dir _ _ => (st, .error .ioError)
  | fuel + 1, st, .dir _ kids =>
    match buildKidsGo (buildRecF env commit fuel) st kids.toList with
    | (st', .error e) => (st', .error e)
    | (st', .ok links) => buildDirectory env commit st' links

/-- `builder.BuildUnixFSRecursive` at sufficient fuel. -/
def buildRec {σ : Type} (env : Env) (commit : Commit σ) (st : σ) (e : FsEntry) :
    σ × Except Err (Cid × Nat) :=
  buildRecF env commit (fsDepth e) st e

/-- The Link System write-commit closure installed by `writeFiles`: it turns
the buffered node bytes into a block for the committed CID and calls
`bs.Put(ctx, blk)` — whose returned error the source DISCARDS, always
reporting a nil commit error. -/
def lsCommit (env : Env) : Commit CarStore := fun bs data c =>
  ((putB env bs ⟨c, data⟩).1, none)

/-- The body of `writeFiles` after the Link System is set up: the loop over
`paths` accumulating `topLevel` entries, with the source's early return on
`noWrap` and its final `BuildUnixFSDirectory` call whose error is swallowed
(`return cid.Undef, nil`). -/
def writeFilesLoop (env : Env) (noWrap : Bool) :
    CarStore → List PBLink → List FsEntry → CarStore × (Cid × Option Err)
  | bs, topLevel, [] =>
    match buildDirectory env (lsCommit env) bs topLevel with
    | (bs', .error _) => (bs', (cidUndef, none))
    | (bs', .ok (c, _)) => (bs', (c, none))
  | bs, topLevel, p :: ps =>
    match buildRec env (lsCommit env) bs p with
    | (bs', .error e) => (bs', (cidUndef, some e))
    | (bs', .ok (c, sz)) =>
      if noWrap then (bs', (c, none))
      else writeFilesLoop env noWrap bs' (topLevel ++ [⟨entryName p, sz, c⟩]) ps

/-- Model of `writeFiles(ctx, noWrap, bs, paths...)` from the source. -/
def writeFiles (env : Env) (noWrap : Bool) (bs : CarStore) (paths : List FsEntry) :
    CarStore × (Cid × Option Err) :=
  writeFilesLoop env noWrap bs [] paths

/-- Model of `createCar(input, output)` from the source, also exposing the
final state of the archive file.  Each fallible step returns on error with
an empty root string, except the very last line, which returns
`root.String()` together with whatever `car.ReplaceRootsInFile` returned. -/
def createCarFull (env : Env) (input : FsEntry) : (String × Option Err) × CarStore :=
  if env.hasherFails then (("", some .unsupportedAlgorithm), openReadWrite [])
  else if env.encodeFails then (("", some .ioError), openReadWrite [])
  else if env.openFails then (("", some .ioError), openReadWrite [])
  else
    match writeFiles env true (openReadWrite [proxyRoot]) [input] with
    | (st, (_, some e)) => (("", some e), st)
    | (st, (root, none)) =>
      match finalizeB env st with
      | .error e => (("", some e), st)
      | .ok st' =>
        match replaceRootsB st' [root] with
        | .error e => ((cidString root, some e), st')
        | .ok st'' => ((cidString root, none), st'')

/-- The pair `createCar` actually returns. -/
def createCar (env : Env) (input : FsEntry) : String × Option Err :=
  (createCarFull env input).1

/-- A byte stream as a sequence of read results; `calculateCid`'s chunker
consumes it exactly once, in order (spec section 4.2), so only the
concatenation below reaches the builder. -/
def drain : List (List Nat) → List Nat
  | [] => []
  | s :: rest => s ++ drain rest

/-- Model of `calculateCid(r)` from the source: `BuildUnixFSFile` against a
Link System whose write commit stores nothing and reports no error. -/
def calculateCid (r : List (List Nat)) : Except Err Cid :=
  match buildFile (fun (u : Unit) _ _ => (u, none)) () (drain r) with
  | (_, .ok (c, _)) => .ok c
  | (_, .error e) => .error e

/-- The `CreateUserAsset` response fields `uploadFile` consumes. -/
structure UploadRsp where
  alreadyExists : Bool
  uploadURL : String
  token : String
deriving DecidableEq

/-- Environment of one `uploadFile` call: failure modes of the local file
operations, the remote `CreateUserAsset` outcome, and whether the multipart
transfer would fail. -/
structure UploadEnv where
  fileOpenFails : Bool
  statFails : Bool
  createAsset : Except Err UploadRsp
  formUploadFails : Bool

/-- Outcome of `uploadFile`: the error it returns, plus whether the
multipart transfer (`uploadFileWithForm`) was attempted at all. -/
structure UploadResult where
  err : Option Err
  transferAttempted : Bool
deriving DecidableEq

/-- Model of `uploadFile(schedulerAPI, carFilePath, carCID, ...)` from the
source: open and stat the archive, call `CreateUserAsset`, and — when the
response reports `AlreadyExists` — return the error
`fmt.Errorf("asset %s already exist", carCID)` without transferring;
otherwise run the multipart upload and propagate its error. -/
def uploadFile (env : UploadEnv) : UploadResult :=
  if env.fileOpenFails then ⟨some .ioError, false⟩
  else if env.statFails then ⟨some .ioError, false⟩
  else
    match env.createAsset with
    | .error e => ⟨some (.createAssetFailed e), false⟩
    | .ok rsp =>
      if rsp.alreadyExists then ⟨some .alreadyExist, false⟩
      else if env.formUploadFails then ⟨some .formUploadFailed, true⟩
      else ⟨none, true⟩

/-- An `io.Reader` over state `σ`: given the state and the capacity of the
caller's buffer `p`, return the new state, the bytes placed into `p` (their
length is the returned count `n`), and the returned error. -/
def ByteReader (σ : Type) := σ → Nat → σ × List Nat × Option Err

/-- Model of `ProgressReader.Read` from `progressreader.go`: forward to the
wrapped reader, then invoke the `Reporter` with the byte count just read
(the reporter's call log is threaded as the second state component), and
return the wrapped reader's count and error unchanged. -/
def progressRead {σ : Type} (rd : ByteReader σ) : ByteReader (σ × List Nat) :=
  fun st cap =>
    match rd st.1 cap with
    | (st', data, e) => ((st', st.2 ++ [data.length]), data, e)

/-- Model of `bytes.Buffer.Read`: drains up to `cap` bytes; an exhausted
buffer reports end-of-file (except for a zero-capacity read). -/
def bufRead : ByteReader (List Nat) := fun buf cap =>
  match buf with
  | [] => if cap = 0 then ([], [], none) else ([], [], some .eofErr)
  | _ =>
    (buf.drop cap, buf.take cap, none)

/-- A segmented reader (such as a chunked network stream): each read yields
the next segment, which may be empty although the stream has not ended. -/
def segRead : ByteReader (List (List Nat)) := fun segs cap =>
  match segs with
  | [] => ([], [], some .eofErr)
  | s :: rest => (rest, s.take cap, none)

/-- The upload transport's read loop: read the multipart body through the
progress-instrumented reader with the given successive buffer capacities,
stopping at the first read that returns an error; the result is the log of
reporter invocations. -/
def readLoop : List Nat → List Nat × List Nat → List Nat
  | [], st => st.2
  | c :: cs, st =>
    match progressRead bufRead st c with
    | (st', _, none) => readLoop cs st'
    | (st', _, some _) => st'.2

/-- The shape every CID produced by the builder has: CIDv1, SHA2-256,
32-byte digest, codec raw (bare leaf) or dag-pb (linked node). -/
def cidShape (c : Cid) : Prop :=
  c.version = 1 ∧ c.mhCode = SHA2_256 ∧ c.digest.length = 32 ∧
    (c.codec = Raw ∨ c.codec = DagPb)

/-- What `writeFiles` computes when wrapping is requested: build every
top-level path into an entry, then build one synthetic directory node over
all the entries (with the source's swallowed error on the final directory
build).  This is the spec's description of the no-wrap-disabled behavior. -/
def dirWrapResult (env : Env) (bs : CarStore) (acc : List PBLink) (ps : List FsEntry) :
    CarStore × (Cid × Option Err) :=
  match buildKidsGo (buildRec env (lsCommit env)) bs ps with
  | (bs', .error e) => (bs', (cidUndef, some e))
  | (bs', .ok ls) =>
    match buildDirectory env (lsCommit env) bs' (acc ++ ls) with
    | (bs'', .error _) => (bs'', (cidUndef, none))
    | (bs'', .ok (c, _)) => (bs'', (c, none))

/-- Concrete input: the file `a` with two bytes, as built by the sample. -/
def pathA : FsEntry := .file "a" [1]

/-- Concrete input: the file `b`. -/
def pathB : FsEntry := .file "b" [2]

/-- A freshly opened store carrying the placeholder root, as in `createCar`. -/
def store0 : CarStore := openReadWrite [proxyRoot]

/-- Environment in which the final directory-node assembly fails. -/
def dirFailEnv : Env := ⟨false, false, false, false, true, false, fun _ => false⟩

/-- Environment in which every block-store put fails with an I/O error. -/
def putFailEnv : Env := ⟨false, false, false, false, false, false, fun _ => true⟩

/-- Environment in which `Finalize` fails with an I/O error. -/
def finFailEnv : Env := ⟨false, false, false, false, false, true, fun _ => false⟩

/-- An upload environment whose `CreateUserAsset` response reports that the
asset already exists. -/
def alreadyEnv : UploadEnv := ⟨false, false, .ok ⟨true, "url", "token"⟩, false⟩

/-- The result of `writeFiles` on the single file `pathA` over a fresh store. -/
def wfA : CarStore × (Cid × Option Err) := writeFiles benignEnv true store0 [pathA]

/-- All events in the list are block puts. -/
def OnlyPuts (evs : List Ev) : Prop := ∀ e ∈ evs, ∃ c, e = Ev.putEv c

/-- The build phase only appends put events and never touches the store's
phase or declared roots. -/
def StorePreserve (a b : CarStore) : Prop :=
  b.phase = a.phase ∧ b.roots = a.roots ∧
    ∃ evs, b.events = a.events ++ evs ∧ OnlyPuts evs

lemma storePreserve_refl (a : CarStore) : StorePreserve a a :=
  ⟨rfl, rfl, [], by simp, by intro e he; cases he⟩

lemma storePreserve_trans {a b c : CarStore}
    (h1 : StorePreserve a b) (h2 : StorePreserve b c) : StorePreserve a c := by
  obtain ⟨p1, r1, evs1, e1, o1⟩ := h1
  obtain ⟨p2, r2, evs2, e2, o2⟩ := h2
  refine ⟨p2.trans p1, r2.trans r1, evs1 ++ evs2, ?_, ?_⟩
  · rw [e2, e1, List.append_assoc]
  · intro e he
    rcases List.mem_append.mp he with h | h
    · exact o1 e h
    · exact o2 e h

lemma putB_preserve (env : Env) (bs : CarStore) (b : Block) :
    StorePreserve bs (putB env bs b).1 := by
  unfold putB
  split_ifs with h1 h2
  · exact ⟨rfl, rfl, [], by simp, by intro e he; cases he⟩
  · exact ⟨rfl, rfl, [.putEv b.cid], rfl, by
      intro e he
      simp only [List.mem_singleton] at he
      exact ⟨b.cid, he⟩⟩
  · exact storePreserve_refl bs

lemma lsCommit_preserve (env : Env) (bs : CarStore) (data : List Nat) (c : Cid) :
    StorePreserve bs (lsCommit env bs data c).1 :=
  putB_preserve env bs ⟨c, data⟩

lemma commitLeaves_lsCommit (env : Env) :
    ∀ (ss : List (List Nat)) (bs : CarStore),
      StorePreserve bs (commitLeaves (lsCommit env) bs ss).1 ∧
      (commitLeaves (lsCommit env) bs ss).2 = none := by
  intro ss
  induction ss with
  | nil => intro bs; exact ⟨storePreserve_refl bs, rfl⟩
  | cons s ss ih =>
    intro bs
    have hstep : lsCommit env bs s (leafCid s) = ((putB env bs ⟨leafCid s, s⟩).1, none) := rfl
    have hih := ih (putB env bs ⟨leafCid s, s⟩).1
    constructor
    · simp only [commitLeaves, hstep]
      exact storePreserve_trans (putB_preserve env bs ⟨leafCid s, s⟩) hih.1
    · simp only [commitLeaves, hstep]
      exact hih.2

lemma buildFile_preserve (env : Env) (bs : CarStore) (data : List Nat) :
    StorePreserve bs (buildFile (lsCommit env) bs data).1 := by
  have hcl := commitLeaves_lsCommit env (chunkBytes data) bs
  rcases h : commitLeaves (lsCommit env) bs (chunkBytes data) with ⟨st', oe⟩
  rw [h] at hcl
  have hoe : oe = none := hcl.2
  subst hoe
  simp only [buildFile]
  rw [h]
  rcases hseg : chunkBytes data with _ | ⟨s, _ | ⟨t, ts⟩⟩ <;> simp only
  · exact storePreserve_trans hcl.1 (lsCommit_preserve env st' _ _)
  · exact hcl.1
  · exact storePreserve_trans hcl.1 (lsCommit_preserve env st' _ _)

lemma buildDirectory_preserve (env : Env) (bs : CarStore) (entries : List PBLink) :
    StorePreserve bs (buildDirectory env (lsCommit env) bs entries).1 := by
  unfold buildDirectory
  split_ifs with h1 h2
  · exact storePreserve_refl bs
  · exact lsCommit_preserve env bs _ _
  · exact storePreserve_refl bs

lemma buildKidsGo_preserve (bld : CarStore → FsEntry → CarStore × Except Err (Cid × Nat))
    (hb : ∀ bs k, StorePreserve bs (bld bs k).1) :
    ∀ (ks : List FsEntry) (bs : CarStore), StorePreserve bs (buildKidsGo bld bs ks).1 := by
  intro ks
  induction ks with
  | nil => intro bs; exact storePreserve_refl bs
  | cons k ks ih =>
    intro bs
    have hk := hb bs k
    rcases h1 : bld bs k with ⟨bs', r⟩
    rw [h1] at hk
    cases r with
    | error e => simp only [buildKidsGo, h1]; exact hk
    | ok v =>
      rcases v with ⟨c, sz⟩
      have hrest := ih bs'
      rcases h2 : buildKidsGo bld bs' ks with ⟨bs'', q⟩
      rw [h2] at hrest
      cases q with
      | error e => simp only [buildKidsGo, h1, h2]; exact storePreserve_trans hk hrest
      | ok ls => simp only [buildKidsGo, h1, h2]; exact storePreserve_trans hk hrest

lemma buildRecF_preserve (env : Env) :
    ∀ (fuel : Nat) (e : FsEntry) (bs : CarStore),
      StorePreserve bs (buildRecF env (lsCommit env) fuel bs e).1 := by
  intro fuel
  induction fuel with
  | zero =>
    intro e bs
    cases e with
    | file n data =>
      simp only [buildRecF]
      split_ifs with h
      · exact storePreserve_refl bs
      · exact buildFile_preserve env bs data
    | dir n kids => exact storePreserve_refl bs
  | succ m ih =>
    intro e bs
    cases e with
    | file n data =>
      simp only [buildRecF]
      split_ifs with h
      · exact storePreserve_refl bs
      · exact buildFile_preserve env bs data
    | dir n kids =>
      simp only [buildRecF]
      have hkids := buildKidsGo_preserve (buildRecF env (lsCommit env) m)
        (fun bs k => ih k bs) kids.toList bs
      rcases h1 : buildKidsGo (buildRecF env (lsCommit env) m) bs kids.toList with ⟨bs', r⟩
      rw [h1] at hkids
      cases r with
      | error e => exact hkids
      | ok links =>
        exact storePreserve_trans hkids (buildDirectory_preserve env bs' links)

lemma buildRec_preserve (env : Env) (bs : CarStore) (e : FsEntry) :
    StorePreserve bs (buildRec env (lsCommit env) bs e).1 :=
  buildRecF_preserve env (fsDepth e) e bs

lemma writeFilesLoop_preserve (env : Env) (noWrap : Bool) :
    ∀ (ps : List FsEntry) (bs : CarStore) (acc : List PBLink),
      StorePreserve bs (writeFilesLoop env noWrap bs acc ps).1 := by
  intro ps
  induction ps with
  | nil =>
    intro bs acc
    have hd := buildDirectory_preserve env bs acc
    rcases h1 : buildDirectory env (lsCommit env) bs acc with ⟨bs', r⟩
    rw [h1] at hd
    cases r with
    | error e => simp only [writeFilesLoop, h1]; exact hd
    | ok v => rcases v with ⟨c, sz⟩; simp only [writeFilesLoop, h1]; exact hd
  | cons p ps ih =>
    intro bs acc
    have hr := buildRec_preserve env bs p
    rcases h1 : buildRec env (lsCommit env) bs p with ⟨bs', r⟩
    rw [h1] at hr
    cases r with
    | error e => simp only [writeFilesLoop, h1]; exact hr
    | ok v =>
      rcases v with ⟨c, sz⟩
      simp only [writeFilesLoop, h1]
      cases noWrap with
      | true => exact hr
      | false =>
        simp only [Bool.false_eq_true, if_false]
        exact storePreserve_trans hr (ih bs' (acc ++ [⟨entryName p, sz, c⟩]))

lemma writeFiles_preserve (env : Env) (noWrap : Bool) (bs : CarStore) (ps : List FsEntry) :
    StorePreserve bs (writeFiles env noWrap bs ps).1 :=
  writeFilesLoop_preserve env noWrap ps bs []

lemma sha256_length (msg : List Nat) : (sha256 msg).length = 32 := by
  simp [sha256]

lemma leafCid_shape (s : List Nat) : cidShape (leafCid s) :=
  ⟨rfl, rfl, sha256_length s, Or.inl rfl⟩

lemma proxyRoot_shape : cidShape proxyRoot :=
  ⟨rfl, rfl, sha256_length [], Or.inr rfl⟩

lemma buildFile_shape {σ : Type} (commit : Commit σ) (st st' : σ) (data : List Nat)
    (c : Cid) (sz : Nat) (h : buildFile commit st data = (st', .ok (c, sz))) :
    cidShape c := by
  simp only [buildFile] at h
  rcases h1 : commitLeaves commit st (chunkBytes data) with ⟨s1, oe⟩
  rw [h1] at h
  cases oe with
  | some e => simp at h
  | none =>
    rcases hseg : chunkBytes data with _ | ⟨s, _ | ⟨t, ts⟩⟩ <;> rw [hseg] at h <;> simp only at h
    · rcases h2 : commit s1 (encodeFileNode (List.map (fun s => (leafCid s, s.length)) []))
        ⟨1, DagPb, SHA2_256, sha256 (encodeFileNode (List.map (fun s => (leafCid s, s.length)) []))⟩
        with ⟨s2, oe2⟩
      rw [h2] at h
      cases oe2 with
      | some e => simp at h
      | none =>
        simp only [Prod.mk.injEq, Except.ok.injEq] at h
        obtain ⟨-, hc, -⟩ := h
        subst hc
        exact ⟨rfl, rfl, sha256_length _, Or.inr rfl⟩
    · simp only [Prod.mk.injEq, Except.ok.injEq] at h
      obtain ⟨-, hc, -⟩ := h
      subst hc
      exact leafCid_shape s
    · rcases h2 : commit s1
        (encodeFileNode (List.map (fun s => (leafCid s, s.length)) (s :: t :: ts)))
        ⟨1, DagPb, SHA2_256,
          sha256 (encodeFileNode (List.map (fun s => (leafCid s, s.length)) (s :: t :: ts)))⟩
        with ⟨s2, oe2⟩
      rw [h2] at h
      cases oe2 with
      | some e => simp at h
      | none =>
        simp only [Prod.mk.injEq, Except.ok.injEq] at h
        obtain ⟨-, hc, -⟩ := h
        subst hc
        exact ⟨rfl, rfl, sha256_length _, Or.inr rfl⟩

lemma buildDirectory_shape {σ : Type} (env : Env) (commit : Commit σ) (st st' : σ)
    (entries : List PBLink) (c : Cid) (sz : Nat)
    (h : buildDirectory env commit st entries = (st', .ok (c, sz))) : cidShape c := by
  simp only [buildDirectory] at h
  split_ifs at h with h1 h2
  · simp at h
  · rcases h3 : commit st (encodeDirNode entries) ⟨1, DagPb, SHA2_256, sha256 (encodeDirNode entries)⟩
      with ⟨s2, oe2⟩
    rw [h3] at h
    cases oe2 with
    | some e => simp at h
    | none =>
      simp only [Prod.mk.injEq, Except.ok.injEq] at h
      obtain ⟨-, hc, -⟩ := h
      subst hc
      exact ⟨rfl, rfl, sha256_length _, Or.inr rfl⟩
  · simp at h

lemma buildRecF_shape {σ : Type} (env : Env) (commit : Commit σ)
    (fuel : Nat) (e : FsEntry) (st st' : σ) (c : Cid) (sz : Nat)
    (h : buildRecF env commit fuel st e = (st', .ok (c, sz))) : cidShape c := by
  cases e with
  | file n data =>
    cases fuel with
    | zero =>
      simp only [buildRecF] at h
      split_ifs at h with hr
      · simp at h
      · exact buildFile_shape commit st st' data c sz h
    | succ m =>
      simp only [buildRecF] at h
      split_ifs at h with hr
      · simp at h
      · exact buildFile_shape commit st st' data c sz h
  | dir n kids =>
    cases fuel with
    | zero => simp [buildRecF] at h
    | succ m =>
      simp only [buildRecF] at h
      rcases h1 : buildKidsGo (buildRecF env commit m) st kids.toList with ⟨s1, r⟩
      rw [h1] at h
      cases r with
      | error e => simp at h
      | ok links => exact buildDirectory_shape env commit s1 st' links c sz h

lemma writeFiles_single_root (env : Env) (bs st : CarStore) (e : FsEntry) (c : Cid)
    (h : writeFiles env true bs [e] = (st, (c, none))) : cidShape c := by
  simp only [writeFiles, writeFilesLoop] at h
  rcases h1 : buildRec env (lsCommit env) bs e with ⟨bs', r⟩
  rw [h1] at h
  cases r with
  | error e' => simp at h
  | ok v =>
    rcases v with ⟨c0, sz⟩
    simp only [if_true] at h
    simp only [Prod.mk.injEq] at h
    obtain ⟨-, hc, -⟩ := h
    subst hc
    exact buildRecF_shape env (lsCommit env) (fsDepth e) e bs bs' c0 sz h1

lemma varint_one : varint 1 = [1] := rfl

lemma varint_32 : varint 32 = [32] := rfl

lemma varint_38 : varint 38 = [38] := rfl

lemma cidBytes_shape_length (c : Cid) (h : cidShape c) : (cidBytes c).length = 36 := by
  obtain ⟨h1, h2, h3, h4⟩ := h
  have hv : varint c.version = [1] := by rw [h1]; rfl
  have hm : varint c.mhCode = [18] := by rw [h2]; rfl
  have hd : varint c.digest.length = [32] := by rw [h3]; rfl
  have hc : varint c.codec = [c.codec] := by
    rcases h4 with h | h <;> rw [h] <;> rfl
  simp [cidBytes, hv, hm, hd, hc, h3, varint_32]

lemma headerBytes_single_length (c : Cid) (h : cidShape c) :
    (headerBytes [c]).length = 39 := by
  have h36 := cidBytes_shape_length c h
  have hp : (headerPayload [c]).length = 38 := by
    simp [headerPayload, catLists, varint_one, h36]
  simp [headerBytes, hp, varint_38]

lemma lsCommit_snd (env : Env) (bs : CarStore) (data : List Nat) (c : Cid) :
    (lsCommit env bs data c).2 = none := rfl

lemma buildFile_val (env : Env) (data : List Nat) (st1 st2 : CarStore) :
    (buildFile (lsCommit env) st1 data).2 = (buildFile (lsCommit env) st2 data).2 := by
  have h1 := (commitLeaves_lsCommit env (chunkBytes data) st1).2
  have h2 := (commitLeaves_lsCommit env (chunkBytes data) st2).2
  rcases e1 : commitLeaves (lsCommit env) st1 (chunkBytes data) with ⟨a1, o1⟩
  rcases e2 : commitLeaves (lsCommit env) st2 (chunkBytes data) with ⟨a2, o2⟩
  rw [e1] at h1; rw [e2] at h2
  simp only at h1 h2
  subst h1; subst h2
  simp only [buildFile]
  rw [e1, e2]
  rcases hseg : chunkBytes data with _ | ⟨s, _ | ⟨t, ts⟩⟩ <;> simp only [lsCommit]

lemma buildDirectory_val (env : Env) (entries : List PBLink) (st1 st2 : CarStore) :
    (buildDirectory env (lsCommit env) st1 entries).2 =
    (buildDirectory env (lsCommit env) st2 entries).2 := by
  simp only [buildDirectory]
  split_ifs <;> simp only [lsCommit]

lemma buildKidsGo_val (bld : CarStore → FsEntry → CarStore × Except Err (Cid × Nat))
    (hb : ∀ s1 s2 k, (bld s1 k).2 = (bld s2 k).2) :
    ∀ (ks : List FsEntry) (st1 st2 : CarStore),
      (buildKidsGo bld st1 ks).2 = (buildKidsGo bld st2 ks).2 := by
  intro ks
  induction ks with
  | nil => intro st1 st2; rfl
  | cons k ks ih =>
    intro st1 st2
    have hk := hb st1 st2 k
    rcases e1 : bld st1 k with ⟨a1, r1⟩
    rcases e2 : bld st2 k with ⟨a2, r2⟩
    rw [e1, e2] at hk
    simp only at hk
    subst hk
    cases r1 with
    | error e => simp only [buildKidsGo, e1, e2]
    | ok v =>
      rcases v with ⟨c, sz⟩
      have hrest := ih a1 a2
      rcases f1 : buildKidsGo bld a1 ks with ⟨b1, q1⟩
      rcases f2 : buildKidsGo bld a2 ks with ⟨b2, q2⟩
      rw [f1, f2] at hrest
      simp only at hrest
      subst hrest
      cases q1 with
      | error e => simp only [buildKidsGo, e1, e2, f1, f2]
      | ok ls => simp only [buildKidsGo, e1, e2, f1, f2]

lemma buildRecF_val (env : Env) :
    ∀ (fuel : Nat) (e : FsEntry) (st1 st2 : CarStore),
      (buildRecF env (lsCommit env) fuel st1 e).2 =
      (buildRecF env (lsCommit env) fuel st2 e).2 := by
  intro fuel
  induction fuel with
  | zero =>
    intro e st1 st2
    cases e with
    | file n data =>
      simp only [buildRecF]
      split_ifs with h
      · rfl
      · exact buildFile_val env data st1 st2
    | dir n kids => rfl
  | succ m ih =>
    intro e st1 st2
    cases e with
    | file n data =>
      simp only [buildRecF]
      split_ifs with h
      · rfl
      · exact buildFile_val env data st1 st2
    | dir n kids =>
      simp only [buildRecF]
      have hk := buildKidsGo_val (buildRecF env (lsCommit env) m)
        (fun s1 s2 k => ih k s1 s2) kids.toList st1 st2
      rcases e1 : buildKidsGo (buildRecF env (lsCommit env) m) st1 kids.toList with ⟨a1, r1⟩
      rcases e2 : buildKidsGo (buildRecF env (lsCommit env) m) st2 kids.toList with ⟨a2, r2⟩
      rw [e1, e2] at hk
      simp only at hk
      subst hk
      cases r1 with
      | error e => rfl
      | ok links => exact buildDirectory_val env links a1 a2

lemma buildRec_val (env : Env) (e : FsEntry) (st1 st2 : CarStore) :
    (buildRec env (lsCommit env) st1 e).2 = (buildRec env (lsCommit env) st2 e).2 :=
  buildRecF_val env (fsDepth e) e st1 st2

lemma writeFilesLoop_val (env : Env) (noWrap : Bool) :
    ∀ (ps : List FsEntry) (acc : List PBLink) (st1 st2 : CarStore),
      (writeFilesLoop env noWrap st1 acc ps).2 = (writeFilesLoop env noWrap st2 acc ps).2 := by
  intro ps
  induction ps with
  | nil =>
    intro acc st1 st2
    have hd := buildDirectory_val env acc st1 st2
    rcases e1 : buildDirectory env (lsCommit env) st1 acc with ⟨a1, r1⟩
    rcases e2 : buildDirectory env (lsCommit env) st2 acc with ⟨a2, r2⟩
    rw [e1, e2] at hd
    simp only at hd
    subst hd
    cases r1 with
    | error e => simp only [writeFilesLoop, e1, e2]
    | ok v => rcases v with ⟨c, sz⟩; simp only [writeFilesLoop, e1, e2]
  | cons p ps ih =>
    intro acc st1 st2
    have hr := buildRec_val env p st1 st2
    rcases e1 : buildRec env (lsCommit env) st1 p with ⟨a1, r1⟩
    rcases e2 : buildRec env (lsCommit env) st2 p with ⟨a2, r2⟩
    rw [e1, e2] at hr
    simp only at hr
    subst hr
    cases r1 with
    | error e => simp only [writeFilesLoop, e1, e2]
    | ok v =>
      rcases v with ⟨c, sz⟩
      simp only [writeFilesLoop, e1, e2]
      cases noWrap with
      | true => simp
      | false =>
        simp only [Bool.false_eq_true, if_false]
        exact ih (acc ++ [⟨entryName p, sz, c⟩]) a1 a2

lemma writeFilesLoop_wrap (env : Env) :
    ∀ (ps : List FsEntry) (bs : CarStore) (acc : List PBLink),
      writeFilesLoop env false bs acc ps = dirWrapResult env bs acc ps := by
  intro ps
  induction ps with
  | nil =>
    intro bs acc
    simp only [writeFilesLoop, dirWrapResult, buildKidsGo, List.append_nil]
  | cons p ps ih =>
    intro bs acc
    rcases e1 : buildRec env (lsCommit env) bs p with ⟨bs', r⟩
    cases r with
    | error e =>
      simp only [writeFilesLoop, dirWrapResult, buildKidsGo, e1]
    | ok v =>
      rcases v with ⟨c, sz⟩
      simp only [writeFilesLoop, dirWrapResult, buildKidsGo, e1, Bool.false_eq_true, if_false]
      rw [ih bs' (acc ++ [(⟨entryName p, sz, c⟩ : PBLink)])]
      simp only [dirWrapResult]
      rcases e2 : buildKidsGo (buildRec env (lsCommit env)) bs' ps with ⟨bs'', q⟩
      cases q with
      | error e => rfl
      | ok ls =>
        simp only [List.append_assoc, List.singleton_append]

/-- C9: `ProgressReader.Read` returns exactly the bytes, count and error of
the wrapped reader's `Read`, advances the wrapped reader exactly as the
wrapped reader itself would, and its only other effect is appending the one
reported count to the observer log — no buffering, no alteration of error
behavior or chunking. -/
theorem progressRead_transparent (σ : Type) (rd : ByteReader σ) (st : σ)
    (log : List Nat) (cap : Nat) :
    (progressRead rd (st, log) cap).2.1 = (rd st cap).2.1 ∧
    (progressRead rd (st, log) cap).2.2 = (rd st cap).2.2 ∧
    (progressRead rd (st, log) cap).1.1 = (rd st cap).1 ∧
    (progressRead rd (st, log) cap).1.2 = log ++ [(rd st cap).2.1.length] := by
  rcases h : rd st cap with ⟨st', data, e⟩
  simp [progressRead, h]

/-- C10: the reporter is invoked exactly once per `Read` call with the byte
count the wrapped reader returned — also on error returns — and a wrapped
reader that yields a zero-byte read mid-stream produces a zero-valued report
before the stream has ended (here a segmented reader with segments
`[5,6]`, `[]`, `[7]`: the second read reports `0` with no error and a later
read still returns data). -/
theorem progressRead_reports_each_read :
    (∀ (σ : Type) (rd : ByteReader σ) (st : σ) (log : List Nat) (cap : Nat),
      (progressRead rd (st, log) cap).1.2 = log ++ [(rd st cap).2.1.length]) ∧
    ((progressRead segRead ([[5, 6], [], [7]], []) 8).1.2 = [2] ∧
     (progressRead segRead ((progressRead segRead ([[5, 6], [], [7]], []) 8).1) 8).1.2 =
       [2, 0] ∧
     (progressRead segRead ((progressRead segRead ([[5, 6], [], [7]], []) 8).1) 8).2.2 =
       none ∧
     (progressRead segRead
        ((progressRead segRead
          ((progressRead segRead ([[5, 6], [], [7]], []) 8).1) 8).1) 8).1.2 = [2, 0, 1]) := by
  constructor
  · intro σ rd st log cap
    rcases h : rd st cap with ⟨st', data, e⟩
    simp [progressRead, h]
  · exact ⟨by decide, by decide, by decide, by decide⟩

lemma readLoop_run (sizes : List Nat) :
    ∀ (body log : List Nat) (extra : Nat),
      (∀ s ∈ sizes, 0 < s) → body.length = sizes.sum → 0 < extra →
      readLoop (sizes ++ [extra]) (body, log) = log ++ sizes ++ [0] := by
  induction sizes with
  | nil =>
    intro body log extra _ hlen hex
    have hbody : body = [] := List.eq_nil_of_length_eq_zero (by simpa using hlen)
    subst hbody
    have hex' : extra ≠ 0 := Nat.pos_iff_ne_zero.mp hex
    simp [readLoop, progressRead, bufRead, hex']
  | cons s ss ih =>
    intro body log extra hpos hlen hex
    have hs : 0 < s := hpos s (by simp)
    have hlen' : body.length = s + ss.sum := by simpa [List.sum_cons] using hlen
    cases body with
    | nil => simp at hlen'; omega
    | cons b bs =>
      have hstep : bufRead (b :: bs) s = ((b :: bs).drop s, (b :: bs).take s, none) := rfl
      have htake : ((b :: bs).take s).length = s := by
        rw [List.length_take]
        omega
      have hdrop : ((b :: bs).drop s).length = ss.sum := by
        rw [List.length_drop]
        omega
      have := ih ((b :: bs).drop s) (log ++ [s]) extra
        (fun x hx => hpos x (by simp [hx])) hdrop hex
      calc readLoop ((s :: ss) ++ [extra]) (b :: bs, log)
          = readLoop (ss ++ [extra]) ((b :: bs).drop s, log ++ [((b :: bs).take s).length]) := by
            simp [readLoop, progressRead, hstep]
        _ = readLoop (ss ++ [extra]) ((b :: bs).drop s, log ++ [s]) := by rw [htake]
        _ = (log ++ [s]) ++ ss ++ [0] := this
        _ = log ++ (s :: ss) ++ [0] := by simp

/-- C4: streaming a body of `T` bytes through the progress-instrumented
reader in reads of positive sizes `s1, ..., sk` summing to `T` invokes the
observer exactly once per read with each `si` in order, plus one final
invocation with `0` at end-of-stream. -/
theorem progressReader_report_sequence (sizes : List Nat) (body : List Nat) (extra : Nat)
    (h1 : ∀ s ∈ sizes, 0 < s) (h2 : body.length = sizes.sum) (h3 : 0 < extra) :
    readLoop (sizes ++ [extra]) (body, []) = sizes ++ [0] := by
  simpa using readLoop_run sizes body [] extra h1 h2 h3

/-- Witness for C4 at sizes `[2, 3]` over a five-byte body. -/
theorem progressReader_report_sequence_witness :
    ((∀ s ∈ [2, 3], 0 < s) ∧ ([9, 8, 7, 6, 5] : List Nat).length = [2, 3].sum ∧
      0 < 1) ∧
    readLoop ([2, 3] ++ [1]) ([9, 8, 7, 6, 5], []) = [2, 3, 0] :=
  ⟨⟨by decide, by decide, by decide⟩,
    progressReader_report_sequence [2, 3] [9, 8, 7, 6, 5] 1 (by decide) (by decide)
      (by decide)⟩

/-- C2 counterexample: when `CreateUserAsset` reports `AlreadyExists`, the
source returns `fmt.Errorf("asset %s already exist", carCID)` — a non-nil
error — not the nil-error success outcome the claim states. -/
theorem uploadFile_alreadyExists_counterexample :
    (uploadFile alreadyEnv).err = some Err.alreadyExist ∧
    ¬ (uploadFile alreadyEnv).err = none := by
  constructor
  · rfl
  · intro h
    simp [uploadFile, alreadyEnv] at h

/-- C2 amended: on an `AlreadyExists` response `uploadFile` does skip the
transfer (the multipart upload is never attempted) but returns a non-nil
"asset already exist" error rather than a success. -/
theorem uploadFile_alreadyExists_skips_transfer (env : UploadEnv) (rsp : UploadRsp)
    (h1 : env.fileOpenFails = false) (h2 : env.statFails = false)
    (h3 : env.createAsset = .ok rsp) (h4 : rsp.alreadyExists = true) :
    uploadFile env = ⟨some Err.alreadyExist, false⟩ := by
  simp [uploadFile, h1, h2, h3, h4]

/-- Witness for the amended C2 at a concrete environment. -/
theorem uploadFile_alreadyExists_skips_transfer_witness :
    (alreadyEnv.fileOpenFails = false ∧ alreadyEnv.statFails = false ∧
      alreadyEnv.createAsset = .ok ⟨true, "url", "token"⟩ ∧
      (⟨true, "url", "token"⟩ : UploadRsp).alreadyExists = true) ∧
    uploadFile alreadyEnv = ⟨some Err.alreadyExist, false⟩ :=
  ⟨⟨rfl, rfl, rfl, rfl⟩,
    uploadFile_alreadyExists_skips_transfer alreadyEnv ⟨true, "url", "token"⟩ rfl rfl rfl
      rfl⟩

/-- C1: the source swallows both failure kinds the claim says are
propagated.  First, with `noWrap` disabled, an injected failure of the final
`BuildUnixFSDirectory` call makes `writeFiles` return `(cid.Undef, nil)` —
the error is dropped by the `return cid.Undef, nil` line.  Second, with
every `bs.Put` failing, `writeFiles` still reports a nil error and the store
holds no block: the put failure inside the Link System commit closure is
ignored. -/
theorem writeFiles_swallows_failures :
    (writeFiles dirFailEnv false store0 [pathA]).2 = (cidUndef, none) ∧
    ((writeFiles putFailEnv true store0 [pathA]).2.2 = none ∧
     (writeFiles putFailEnv true store0 [pathA]).1.blocks = []) := by
  exact ⟨by decide, by decide, by decide⟩

/-- C3 counterexample: with `noWrap` requested and the two top-level paths
`pathA`, `pathB`, `writeFiles` returns the bare leaf CID of the first path —
identical to the single-path result and different from the synthetic
directory CID produced without `noWrap` — so multiple paths do not force a
directory wrap. -/
theorem writeFiles_noWrap_multi_counterexample :
    (writeFiles benignEnv true store0 [pathA, pathB]).2.1 =
      (writeFiles benignEnv true store0 [pathA]).2.1 ∧
    (writeFiles benignEnv true store0 [pathA, pathB]).2.1 = leafCid [1] ∧
    (writeFiles benignEnv true store0 [pathA, pathB]).2.1 ≠
      (writeFiles benignEnv false store0 [pathA, pathB]).2.1 := by
  exact ⟨by decide, by decide, by decide⟩

/-- C3 amended: with no-wrap requested `writeFiles` returns the result of
building the first path alone, ignoring every remaining path; the synthetic
directory node wrapping all supplied paths is produced exactly when no-wrap
is not requested. -/
theorem writeFiles_wrap_behavior :
    (∀ (env : Env) (st : CarStore) (p : FsEntry) (rest : List FsEntry),
      writeFiles env true st (p :: rest) = writeFiles env true st [p]) ∧
    (∀ (env : Env) (st : CarStore) (ps : List FsEntry),
      writeFiles env false st ps = dirWrapResult env st [] ps) := by
  constructor
  · intro env st p rest
    simp only [writeFiles, writeFilesLoop]
    rcases h : buildRec env (lsCommit env) st p with ⟨st', r⟩
    cases r with
    | error e => rfl
    | ok v => rcases v with ⟨c, sz⟩; rfl
  · intro env st ps
    exact writeFilesLoop_wrap env ps st []

/-- C5 counterexample: the true root of a successful single-file build is a
raw-codec CID (the bare leaf of the file), while the placeholder root is
dag-pb, so the placeholder does not have "the same codec (DagPb)" as the
true root. -/
theorem placeholder_codec_counterexample :
    (writeFiles benignEnv true store0 [pathA]).2.2 = none ∧
    ((writeFiles benignEnv true store0 [pathA]).2.1).codec = Raw ∧
    proxyRoot.codec = DagPb ∧
    ((writeFiles benignEnv true store0 [pathA]).2.1).codec ≠ proxyRoot.codec := by
  exact ⟨by decide, by decide, by decide, by decide⟩

/-- C5 amended: for every successful build, the true root shares the
placeholder's hash algorithm (SHA2-256) and 32-byte digest length, and its
codec is raw or dag-pb — either way its header serializes to exactly the
placeholder header's size, so after `Finalize` the root patch succeeds as a
pure in-place, size-preserving overwrite after which the file length is
unchanged, the block region is untouched and every written block remains
readable.  (The codec itself can differ from the placeholder's DagPb: a
single-chunk file's root is a raw leaf.) -/
theorem createCar_header_patch (fs : FsEntry) (st : CarStore) (c : Cid)
    (h : writeFiles benignEnv true store0 [fs] = (st, (c, none))) :
    cidShape c ∧
    (headerBytes [c]).length = (headerBytes [proxyRoot]).length ∧
    ∃ stf stp : CarStore,
      finalizeB benignEnv st = .ok stf ∧
      replaceRootsB stf [c] = .ok stp ∧
      (fileBytes stp).length = (fileBytes stf).length ∧
      stp.blocks = stf.blocks ∧
      ∀ x, getB stp x = getB stf x := by
  have shape := writeFiles_single_root benignEnv store0 st fs c h
  have hsp : StorePreserve store0 st := by
    have := writeFiles_preserve benignEnv true store0 [fs]
    rw [h] at this
    exact this
  have hph : st.phase = Phase.opened := hsp.1
  have hroots : st.roots = [proxyRoot] := hsp.2.1
  have h39c : (headerBytes [c]).length = 39 := headerBytes_single_length c shape
  have h39p : (headerBytes [proxyRoot]).length = 39 :=
    headerBytes_single_length proxyRoot proxyRoot_shape
  refine ⟨shape, by rw [h39c, h39p], ?_⟩
  refine ⟨{ st with phase := .finalized, events := st.events ++ [.finalizeEv] },
    { st with
        phase := .rootPatched
        roots := [c]
        events := (st.events ++ [.finalizeEv]) ++ [.replaceEv] },
    ?_, ?_, ?_, rfl, fun x => rfl⟩
  · simp [finalizeB, hph, benignEnv]
  · simp [replaceRootsB, hroots, h39c, h39p]
  · simp only [fileBytes, List.length_append]
    rw [hroots, h39c, h39p]

/-- Witness for the amended C5 at the single file `pathA`. -/
theorem createCar_header_patch_witness :
    (writeFiles benignEnv true store0 [pathA] = (wfA.1, (wfA.2.1, none))) ∧
    (cidShape wfA.2.1 ∧
     (headerBytes [wfA.2.1]).length = (headerBytes [proxyRoot]).length ∧
     ∃ stf stp : CarStore,
       finalizeB benignEnv wfA.1 = .ok stf ∧
       replaceRootsB stf [wfA.2.1] = .ok stp ∧
       (fileBytes stp).length = (fileBytes stf).length ∧
       stp.blocks = stf.blocks ∧
       ∀ x, getB stp x = getB stf x) :=
  ⟨by decide, createCar_header_patch pathA wfA.1 wfA.2.1 (by decide)⟩

/-- C6: the build is deterministic over the content it consumes — two byte
streams whose drained contents are byte-identical give `calculateCid` the
same CID, and the root and error `writeFiles` computes are independent of
the block store state it starts from (two runs over identical path
structures and contents agree regardless of the destination store). -/
theorem build_deterministic :
    (∀ r1 r2 : List (List Nat), drain r1 = drain r2 → calculateCid r1 = calculateCid r2) ∧
    (∀ (env : Env) (noWrap : Bool) (ps : List FsEntry) (st1 st2 : CarStore),
      (writeFiles env noWrap st1 ps).2 = (writeFiles env noWrap st2 ps).2) := by
  constructor
  · intro r1 r2 h
    simp [calculateCid, h]
  · intro env noWrap ps st1 st2
    exact writeFilesLoop_val env noWrap ps [] st1 st2

/-- Witness for C6: two different segmentations of the same bytes get the
same CID. -/
theorem build_deterministic_witness :
    drain [[1], [2]] = drain [[1, 2]] ∧ calculateCid [[1], [2]] = calculateCid [[1, 2]] :=
  ⟨by decide, build_deterministic.1 [[1], [2]] [[1, 2]] (by decide)⟩

/-- C7: in every execution of `createCar` the store's event trace is a
sequence of block puts, optionally followed by exactly `Finalize` and then
exactly the root replacement — no put ever occurs after `Finalize`, and the
replacement never precedes it, matching `Open → Finalized → RootPatched`. -/
theorem createCar_two_phase (env : Env) (fs : FsEntry) :
    ∃ ps, OnlyPuts ps ∧
      ((createCarFull env fs).2.events = ps ∨
       (createCarFull env fs).2.events = ps ++ [Ev.finalizeEv] ∨
       (createCarFull env fs).2.events = ps ++ [Ev.finalizeEv, Ev.replaceEv]) := by
  by_cases h1 : env.hasherFails = true
  · exact ⟨[], fun e he => absurd he (List.not_mem_nil e),
      Or.inl (by simp [createCarFull, h1, openReadWrite])⟩
  rw [Bool.not_eq_true] at h1
  by_cases h2 : env.encodeFails = true
  · exact ⟨[], fun e he => absurd he (List.not_mem_nil e),
      Or.inl (by simp [createCarFull, h1, h2, openReadWrite])⟩
  rw [Bool.not_eq_true] at h2
  by_cases h3 : env.openFails = true
  · exact ⟨[], fun e he => absurd he (List.not_mem_nil e),
      Or.inl (by simp [createCarFull, h1, h2, h3, openReadWrite])⟩
  rw [Bool.not_eq_true] at h3
  have hsp := writeFiles_preserve env true (openReadWrite [proxyRoot]) [fs]
  rcases hw : writeFiles env true (openReadWrite [proxyRoot]) [fs] with ⟨st, c, oe⟩
  rw [hw] at hsp
  obtain ⟨hph, hroots, evs, hevents, honly⟩ := hsp
  have hev : st.events = evs := by simpa [openReadWrite] using hevents
  have hph' : st.phase = Phase.opened := hph
  have hroots' : st.roots = [proxyRoot] := by simpa [openReadWrite] using hroots
  cases oe with
  | some e =>
    refine ⟨evs, honly, Or.inl ?_⟩
    simp [createCarFull, h1, h2, h3, hw, hev]
  | none =>
    by_cases h4 : env.finalizeFails = true
    · have hfin : finalizeB env st = .error .ioError := by
        simp [finalizeB, hph', h4]
      refine ⟨evs, honly, Or.inl ?_⟩
      simp [createCarFull, h1, h2, h3, hw, hfin, hev]
    · rw [Bool.not_eq_true] at h4
      have hfin : finalizeB env st =
          .ok { st with phase := .finalized, events := st.events ++ [.finalizeEv] } := by
        simp [finalizeB, hph', h4]
      have hshape : cidShape c :=
        writeFiles_single_root env (openReadWrite [proxyRoot]) st fs c hw
      have h39c := headerBytes_single_length c hshape
      have h39p := headerBytes_single_length proxyRoot proxyRoot_shape
      have hrep : replaceRootsB
          { st with phase := .finalized, events := st.events ++ [.finalizeEv] } [c] =
          .ok { st with
                  phase := .rootPatched
                  roots := [c]
                  events := (st.events ++ [.finalizeEv]) ++ [.replaceEv] } := by
        simp [replaceRootsB, hroots', h39c, h39p]
      rw [hev] at hfin hrep
      refine ⟨evs, honly, Or.inr (Or.inr ?_)⟩
      simp [createCarFull, h1, h2, h3, hw, hfin, hrep, hev]

/-- C8: whenever the hasher setup, the multihash encoding, the store open,
`writeFiles` or `Finalize` fails, `createCar` returns the empty string as
the root together with a non-nil error — it never reports a root for a
build that aborted before root replacement. -/
theorem createCar_abort_empty_root (env : Env) (fs : FsEntry)
    (h : env.hasherFails = true ∨ env.encodeFails = true ∨ env.openFails = true ∨
      (writeFiles env true (openReadWrite [proxyRoot]) [fs]).2.2.isSome = true ∨
      env.finalizeFails = true) :
    (createCar env fs).1 = "" ∧ (createCar env fs).2.isSome = true := by
  unfold createCar createCarFull
  by_cases h1 : env.hasherFails = true
  · simp [h1]
  rw [Bool.not_eq_true] at h1
  by_cases h2 : env.encodeFails = true
  · simp [h1, h2]
  rw [Bool.not_eq_true] at h2
  by_cases h3 : env.openFails = true
  · simp [h1, h2, h3]
  rw [Bool.not_eq_true] at h3
  rcases hw : writeFiles env true (openReadWrite [proxyRoot]) [fs] with ⟨st, c, oe⟩
  cases oe with
  | some e => simp [h1, h2, h3, hw]
  | none =>
    have h4 : env.finalizeFails = true := by
      rcases h with h | h | h | h | h
      · rw [h1] at h; cases h
      · rw [h2] at h; cases h
      · rw [h3] at h; cases h
      · rw [hw] at h; simp at h
      · exact h
    have hsp := writeFiles_preserve env true (openReadWrite [proxyRoot]) [fs]
    rw [hw] at hsp
    have hph : st.phase = Phase.opened := hsp.1
    have hfin : finalizeB env st = .error .ioError := by
      simp [finalizeB, hph, h4]
    simp [h1, h2, h3, hw, hfin]

/-- Witness for C8: with only `Finalize` failing, `createCar` on `pathA`
returns an empty root and a non-nil error. -/
theorem createCar_abort_empty_root_witness :
    (finFailEnv.hasherFails = true ∨ finFailEnv.encodeFails = true ∨
      finFailEnv.openFails = true ∨
      (writeFiles finFailEnv true (openReadWrite [proxyRoot]) [pathA]).2.2.isSome = true ∨
      finFailEnv.finalizeFails = true) ∧
    ((createCar finFailEnv pathA).1 = "" ∧ (createCar finFailEnv pathA).2.isSome = true) :=
  ⟨Or.inr (Or.inr (Or.inr (Or.inr rfl))),
    createCar_abort_empty_root finFailEnv pathA (Or.inr (Or.inr (Or.inr (Or.inr rfl))))⟩
